import Mathlib

/-!
Shallow embedding of the concurrency-sweep benchmark executor and the
statistical aggregation engine of the node-test-runner-parallelization
analysis repository.

JavaScript numbers are modelled as exact rationals (`ℚ`).  The only places
where the special IEEE values `Infinity`, `-Infinity` and `NaN` are
observable in the embedded code are `Math.min(...values)` /
`Math.max(...values)` on an empty argument list and division; those are
modelled by the type `JNum` below.  `Math.sqrt` is modelled by `Real.sqrt`.
-/

/-- A JavaScript number that may be `NaN`, `Infinity`, `-Infinity` or an
ordinary (finite, here: rational) number. -/
inductive JNum where
  | nan : JNum
  | negInf : JNum
  | posInf : JNum
  | num : ℚ → JNum
deriving DecidableEq

/-- Binary `Math.min` on `JNum` (NaN propagates, `-Infinity` absorbs,
`Infinity` is the identity). -/
def jsMin2 : JNum → JNum → JNum
  | JNum.nan, _ => JNum.nan
  | _, JNum.nan => JNum.nan
  | JNum.negInf, _ => JNum.negInf
  | _, JNum.negInf => JNum.negInf
  | JNum.posInf, b => b
  | a, JNum.posInf => a
  | JNum.num a, JNum.num b => JNum.num (min a b)

/-- Binary `Math.max` on `JNum` (NaN propagates, `Infinity` absorbs,
`-Infinity` is the identity). -/
def jsMax2 : JNum → JNum → JNum
  | JNum.nan, _ => JNum.nan
  | _, JNum.nan => JNum.nan
  | JNum.posInf, _ => JNum.posInf
  | _, JNum.posInf => JNum.posInf
  | JNum.negInf, b => b
  | a, JNum.negInf => a
  | JNum.num a, JNum.num b => JNum.num (max a b)

/-- `Math.min(...values)`: folds `jsMin2` starting from `Infinity`, so the
empty argument list yields `Infinity`. -/
def jsMinList (values : List ℚ) : JNum :=
  values.foldl (fun acc val => jsMin2 acc (JNum.num val)) JNum.posInf

/-- `Math.max(...values)`: folds `jsMax2` starting from `-Infinity`, so the
empty argument list yields `-Infinity`. -/
def jsMaxList (values : List ℚ) : JNum :=
  values.foldl (fun acc val => jsMax2 acc (JNum.num val)) JNum.negInf

/-- JavaScript division on `JNum` (zero is treated as `+0`; negative zero is
not modelled). -/
def jsDiv : JNum → JNum → JNum
  | JNum.nan, _ => JNum.nan
  | _, JNum.nan => JNum.nan
  | JNum.posInf, JNum.posInf => JNum.nan
  | JNum.posInf, JNum.negInf => JNum.nan
  | JNum.negInf, JNum.posInf => JNum.nan
  | JNum.negInf, JNum.negInf => JNum.nan
  | JNum.posInf, JNum.num b => if 0 ≤ b then JNum.posInf else JNum.negInf
  | JNum.negInf, JNum.num b => if 0 ≤ b then JNum.negInf else JNum.posInf
  | JNum.num _, JNum.posInf => JNum.num 0
  | JNum.num _, JNum.negInf => JNum.num 0
  | JNum.num a, JNum.num b =>
      if b = 0 then
        if a = 0 then JNum.nan else if 0 < a then JNum.posInf else JNum.negInf
      else JNum.num (a / b)

/-- `[...values].sort((a, b) => a - b)`: the ascending numeric sort.  Any
comparison sort with this comparator produces the unique ascending
rearrangement of the values, modelled by insertion sort. -/
def sortAsc (values : List ℚ) : List ℚ :=
  values.insertionSort (fun a b => a ≤ b)

/-- `calculateMean`: sum via `reduce((sum, val) => sum + val, 0)` divided by
the length; `0` for the empty array. -/
def calculateMean (values : List ℚ) : ℚ :=
  if values.length = 0 then 0
  else values.foldl (fun sum val => sum + val) 0 / values.length

/-- `calculateMedian`: sort ascending, take the middle element for odd
length and the average of the two middle elements for even length; `0` for
the empty array. -/
def calculateMedian (values : List ℚ) : ℚ :=
  if values.length = 0 then 0
  else
    let sorted := sortAsc values
    let mid := sorted.length / 2
    if sorted.length % 2 = 0 then (sorted.getD (mid - 1) 0 + sorted.getD mid 0) / 2
    else sorted.getD mid 0

/-- `calculateStdDev`: square root of the mean of the squared deviations
from the mean (population standard deviation); `0` for the empty array. -/
noncomputable def calculateStdDev (values : List ℚ) : ℝ :=
  if values.length = 0 then 0
  else
    Real.sqrt ((calculateMean (values.map (fun val => (val - calculateMean values) ^ 2)) : ℚ) : ℝ)

/-- `calculatePercentile`: sort ascending, take the fractional index
`(percentile / 100) * (length - 1)` and linearly interpolate between the
floor and ceiling positions; `0` for the empty array.  Out-of-range list
access is totalised with default `0` (the code never performs it for
`0 ≤ percentile ≤ 100`). -/
def calculatePercentile (values : List ℚ) (percentile : ℚ) : ℚ :=
  if values.length = 0 then 0
  else
    let sorted := sortAsc values
    let index := (percentile / 100) * ((sorted.length : ℚ) - 1)
    let lower := ⌊index⌋
    let upper := ⌈index⌉
    let weight := index - (lower : ℚ)
    sorted.getD lower.toNat 0 * (1 - weight) + sorted.getD upper.toNat 0 * weight

/-- The `Statistics` record computed by `calculateStatistics`. -/
structure Statistics where
  mean : ℚ
  median : ℚ
  stdDev : ℝ
  min : JNum
  max : JNum
  p25 : ℚ
  p75 : ℚ
  p95 : ℚ
  p99 : ℚ

/-- `calculateStatistics`: all descriptive statistics of a numeric array;
`min`/`max` are `Math.min(...values)` / `Math.max(...values)`. -/
noncomputable def calculateStatistics (values : List ℚ) : Statistics :=
  { mean := calculateMean values
    median := calculateMedian values
    stdDev := calculateStdDev values
    min := jsMinList values
    max := jsMaxList values
    p25 := calculatePercentile values 25
    p75 := calculatePercentile values 75
    p95 := calculatePercentile values 95
    p99 := calculatePercentile values 99 }

/-- One measurement of a test run at one concurrency level
(`TestRunBenchmarkResult`). -/
structure TestRunBenchmarkResult where
  concurrency : ℚ
  duration : ℚ
  passed : ℚ
  failed : ℚ
  totalTests : ℚ
deriving DecidableEq

/-- One persisted benchmark sample (`BenchmarkResult`): the results of one
full sweep together with its configuration. -/
structure BenchmarkResult where
  numberOfTestFiles : ℚ
  applicationMode : String
  results : List TestRunBenchmarkResult
deriving DecidableEq

/-- Per-concurrency aggregate (`AggregatedResult`). -/
structure AggregatedResult where
  concurrency : ℚ
  durationStats : Statistics
  passedStats : Statistics
  failedStats : Statistics
  sampleCount : ℕ

/-- The `metadata` field of a `StatisticalAnalysis`. -/
structure AnalysisMetadata where
  timestamp : ℚ
  benchmarkResultsDir : String

/-- Top-level output of the aggregator (`StatisticalAnalysis`). -/
structure StatisticalAnalysis where
  numberOfTestFiles : ℚ
  applicationMode : String
  sampleSize : ℕ
  aggregatedResults : List AggregatedResult
  metadata : AnalysisMetadata

/-- All measurements of all samples in traversal order (the nested
`for (const result of results) for (const benchResult of result.results)`
loops of `aggregateResults`). -/
def allMeasurements (results : List BenchmarkResult) : List TestRunBenchmarkResult :=
  results.flatMap (fun result => result.results)

/-- The bucket that the `Map`-based grouping of `aggregateResults` builds
for one concurrency value: every measurement with that concurrency, in
traversal order. -/
def bucket (results : List BenchmarkResult) (c : ℚ) : List TestRunBenchmarkResult :=
  (allMeasurements results).filter (fun m => m.concurrency = c)

/-- `Array.from(resultsByConcurrency.keys()).sort((a, b) => a - b)`: the
distinct concurrency values, sorted ascending.  (The `Map` keeps keys in
first-insertion order and `dedup` in another duplicate-free order; after
the ascending sort both yield the same list.) -/
def sortedConcurrencies (results : List BenchmarkResult) : List ℚ :=
  sortAsc (((allMeasurements results).map (fun m => m.concurrency)).dedup)

/-- The `AggregatedResult` pushed by the statistics loop of
`aggregateResults` for one concurrency value. -/
noncomputable def aggregatedLevel (results : List BenchmarkResult) (concurrency : ℚ) :
    AggregatedResult :=
  { concurrency := concurrency
    durationStats := calculateStatistics ((bucket results concurrency).map (fun m => m.duration))
    passedStats := calculateStatistics ((bucket results concurrency).map (fun m => m.passed))
    failedStats := calculateStatistics ((bucket results concurrency).map (fun m => m.failed))
    sampleCount := ((bucket results concurrency).map (fun m => m.duration)).length }

/-- `aggregateResults` on the already-parsed result records (file reading is
effectful and supplies `results`; `Date.now()` and the directory name are
passed in explicitly).  Throwing is modelled with `Except.error`. -/
noncomputable def aggregateResults (results : List BenchmarkResult) (timestamp : ℚ)
    (benchmarkResultsDir : String) : Except String StatisticalAnalysis :=
  if results.length = 0 then Except.error "No results found in directory"
  else
    Except.ok
      { numberOfTestFiles := (results.headD ⟨0, "", []⟩).numberOfTestFiles
        applicationMode := (results.headD ⟨0, "", []⟩).applicationMode
        sampleSize := results.length
        aggregatedResults := (sortedConcurrencies results).map (aggregatedLevel results)
        metadata := { timestamp := timestamp, benchmarkResultsDir := benchmarkResultsDir } }

/-- One row of the speedup table of `renderStatisticsTable`: the four
ratios `sequential.durationStats.f / result.durationStats.f` for
`f ∈ {mean, median, min, max}`. -/
structure SpeedupRow where
  concurrency : ℚ
  meanSpeedup : JNum
  medianSpeedup : JNum
  bestSpeedup : JNum
  worstSpeedup : JNum
deriving DecidableEq

/-- The speedup row computed for `result` against the baseline
`sequential`. -/
def speedupRow (sequential result : AggregatedResult) : SpeedupRow :=
  { concurrency := result.concurrency
    meanSpeedup := jsDiv (JNum.num sequential.durationStats.mean) (JNum.num result.durationStats.mean)
    medianSpeedup := jsDiv (JNum.num sequential.durationStats.median) (JNum.num result.durationStats.median)
    bestSpeedup := jsDiv sequential.durationStats.min result.durationStats.min
    worstSpeedup := jsDiv sequential.durationStats.max result.durationStats.max }

/-- The speedup table of `renderStatisticsTable`: baseline is
`analysis.aggregatedResults[0]`; if it is `undefined` no rows are
rendered. -/
def speedupRows (analysis : StatisticalAnalysis) : List SpeedupRow :=
  match analysis.aggregatedResults.head? with
  | none => []
  | some sequential => analysis.aggregatedResults.map (speedupRow sequential)

/-- `renderSummary`'s fastest-configuration selection:
`reduce((best, current) => current.durationStats.mean < best.durationStats.mean ? current : best)`.
JavaScript `reduce` without an initial value throws on an empty array,
modelled by `Option`. -/
def bestByMean (levels : List AggregatedResult) : Option AggregatedResult :=
  match levels with
  | [] => none
  | l0 :: rest =>
      some (rest.foldl
        (fun best current =>
          if current.durationStats.mean < best.durationStats.mean then current else best)
        l0)

/-- The sweep loop of the `benchmark` async generator, run over an explicit
list of concurrency levels.  The executor `exec` (`benchmarkTestRun`) is an
oracle returning either a measurement or a rejection; the sweep awaits each
level in order, yields the pair `(level, measurement)` on success, and on
the first rejection stops without invoking any further level, reporting the
failing level and its error. -/
def benchmarkAux {E M : Type} (exec : ℕ → Except E M) :
    List ℕ → List (ℕ × M) × Option (ℕ × E)
  | [] => ([], none)
  | i :: rest =>
    match exec i with
    | Except.error e => ([], some (i, e))
    | Except.ok m =>
        let r := benchmarkAux exec rest
        ((i, m) :: r.1, r.2)

/-- The `benchmark` async generator: `for (let i = 1; i <= concurrency; i++)
{ const result = await benchmarkTestRun(i, testFiles); yield result; }`.
Returns the yielded measurements (tagged with their level) and the failure,
if any, that terminated the sweep. -/
def benchmark {E M : Type} (exec : ℕ → Except E M) (concurrency : ℕ) :
    List (ℕ × M) × Option (ℕ × E) :=
  benchmarkAux exec (List.range' 1 concurrency)

/-- The levels at which the executor was invoked during a sweep: one
invocation per yielded measurement, plus one for the failing level when the
sweep aborted. -/
def invokedLevels {E M : Type} (r : List (ℕ × M) × Option (ℕ × E)) : List ℕ :=
  r.1.map Prod.fst ++ (match r.2 with | some ke => [ke.1] | none => [])

/-! ### Basic facts about the ascending sort -/

lemma sortAsc_sorted (v : List ℚ) : (sortAsc v).Sorted (fun a b => a ≤ b) :=
  List.sorted_insertionSort (fun a b => a ≤ b) v

lemma sortAsc_perm (v : List ℚ) : (sortAsc v).Perm v :=
  List.perm_insertionSort (fun a b => a ≤ b) v

lemma sortAsc_length (v : List ℚ) : (sortAsc v).length = v.length :=
  (sortAsc_perm v).length_eq

lemma sortAsc_mem (v : List ℚ) (a : ℚ) : a ∈ sortAsc v ↔ a ∈ v :=
  (sortAsc_perm v).mem_iff

lemma getD_mem_of_lt {s : List ℚ} {i : ℕ} (h : i < s.length) : s.getD i 0 ∈ s := by
  rw [List.getD_eq_getElem s 0 h]
  exact List.getElem_mem h

lemma sorted_getD_mono {s : List ℚ} (hs : s.Sorted (fun a b => a ≤ b)) {i j : ℕ}
    (hij : i ≤ j) (hj : j < s.length) : s.getD i 0 ≤ s.getD j 0 := by
  have hi : i < s.length := lt_of_le_of_lt hij hj
  rw [List.getD_eq_getElem s 0 hi, List.getD_eq_getElem s 0 hj]
  exact List.Sorted.rel_get_of_le hs (a := ⟨i, hi⟩) (b := ⟨j, hj⟩) hij

/-! ### `Math.min(...values)` and `Math.max(...values)` on non-empty input -/

lemma foldl_min_spec (xs : List ℚ) : ∀ q : ℚ,
    (xs.foldl min q = q ∨ xs.foldl min q ∈ xs) ∧ xs.foldl min q ≤ q ∧
      ∀ x ∈ xs, xs.foldl min q ≤ x := by
  induction xs with
  | nil => intro q; exact ⟨Or.inl rfl, le_refl q, by intro x hx; cases hx⟩
  | cons y ys ih =>
      intro q
      simp only [List.foldl_cons]
      obtain ⟨hmem, hle, hall⟩ := ih (min q y)
      refine ⟨?_, le_trans hle (min_le_left q y), ?_⟩
      · rcases hmem with h | h
        · rcases min_choice q y with hq | hy
          · exact Or.inl (h.trans hq)
          · exact Or.inr (by rw [h, hy]; exact List.mem_cons_self y ys)
        · exact Or.inr (List.mem_cons_of_mem y h)
      · intro x hx
        rcases List.mem_cons.mp hx with rfl | h
        · exact le_trans hle (min_le_right q x)
        · exact hall x h

lemma foldl_max_spec (xs : List ℚ) : ∀ q : ℚ,
    (xs.foldl max q = q ∨ xs.foldl max q ∈ xs) ∧ q ≤ xs.foldl max q ∧
      ∀ x ∈ xs, x ≤ xs.foldl max q := by
  induction xs with
  | nil => intro q; exact ⟨Or.inl rfl, le_refl q, by intro x hx; cases hx⟩
  | cons y ys ih =>
      intro q
      simp only [List.foldl_cons]
      obtain ⟨hmem, hle, hall⟩ := ih (max q y)
      refine ⟨?_, le_trans (le_max_left q y) hle, ?_⟩
      · rcases hmem with h | h
        · rcases max_choice q y with hq | hy
          · exact Or.inl (h.trans hq)
          · exact Or.inr (by rw [h, hy]; exact List.mem_cons_self y ys)
        · exact Or.inr (List.mem_cons_of_mem y h)
      · intro x hx
        rcases List.mem_cons.mp hx with rfl | h
        · exact le_trans (le_max_right q x) hle
        · exact hall x h

lemma jsMinList_num (xs : List ℚ) : ∀ q : ℚ,
    xs.foldl (fun acc val => jsMin2 acc (JNum.num val)) (JNum.num q) = JNum.num (xs.foldl min q) := by
  induction xs with
  | nil => intro q; rfl
  | cons y ys ih => intro q; simpa [jsMin2] using ih (min q y)

lemma jsMaxList_num (xs : List ℚ) : ∀ q : ℚ,
    xs.foldl (fun acc val => jsMax2 acc (JNum.num val)) (JNum.num q) = JNum.num (xs.foldl max q) := by
  induction xs with
  | nil => intro q; rfl
  | cons y ys ih => intro q; simpa [jsMax2] using ih (max q y)

lemma jsMinList_spec (v : List ℚ) (hv : v ≠ []) :
    ∃ mn : ℚ, jsMinList v = JNum.num mn ∧ mn ∈ v ∧ ∀ x ∈ v, mn ≤ x := by
  cases v with
  | nil => exact absurd rfl hv
  | cons y ys =>
      obtain ⟨hmem, hle, hall⟩ := foldl_min_spec ys y
      refine ⟨ys.foldl min y, jsMinList_num ys y, ?_, ?_⟩
      · rcases hmem with h | h
        · rw [h]; exact List.mem_cons_self y ys
        · exact List.mem_cons_of_mem y h
      · intro x hx
        rcases List.mem_cons.mp hx with rfl | h
        · exact hle
        · exact hall x h

lemma jsMaxList_spec (v : List ℚ) (hv : v ≠ []) :
    ∃ mx : ℚ, jsMaxList v = JNum.num mx ∧ mx ∈ v ∧ ∀ x ∈ v, x ≤ mx := by
  cases v with
  | nil => exact absurd rfl hv
  | cons y ys =>
      obtain ⟨hmem, hle, hall⟩ := foldl_max_spec ys y
      refine ⟨ys.foldl max y, jsMaxList_num ys y, ?_, ?_⟩
      · rcases hmem with h | h
        · rw [h]; exact List.mem_cons_self y ys
        · exact List.mem_cons_of_mem y h
      · intro x hx
        rcases List.mem_cons.mp hx with rfl | h
        · exact hle
        · exact hall x h

/-! ### The linear interpolation of `calculatePercentile` -/

/-- The interpolation expression returned by `calculatePercentile`:
`sorted[lower] * (1 - weight) + sorted[upper] * weight` at fractional index
`idx`. -/
def interpAt (s : List ℚ) (idx : ℚ) : ℚ :=
  s.getD ⌊idx⌋.toNat 0 * (1 - (idx - (⌊idx⌋ : ℚ))) + s.getD ⌈idx⌉.toNat 0 * (idx - (⌊idx⌋ : ℚ))

lemma calculatePercentile_eq_interpAt (v : List ℚ) (hv : v ≠ []) (p : ℚ) :
    calculatePercentile v p = interpAt (sortAsc v) (p / 100 * (((sortAsc v).length : ℚ) - 1)) := by
  have hlen : ¬(v.length = 0) := by simpa [List.length_eq_zero] using hv
  simp only [calculatePercentile, if_neg hlen, interpAt]

lemma ceil_le_int {n : ℕ} {idx : ℚ} (h1 : idx ≤ (n : ℚ) - 1) : ⌈idx⌉ ≤ (n : ℤ) - 1 :=
  Int.ceil_le.mpr (by push_cast; linarith)

lemma ceil_toNat_lt {n : ℕ} {idx : ℚ} (h0 : 0 ≤ idx) (h1 : idx ≤ (n : ℚ) - 1) :
    ⌈idx⌉.toNat < n := by
  have hn : 1 ≤ n := by
    by_contra h
    have hn0 : n = 0 := by omega
    subst hn0
    simp only [Nat.cast_zero] at h1
    linarith
  have h2 : ⌈idx⌉ ≤ (n : ℤ) - 1 := ceil_le_int h1
  omega

lemma floor_toNat_lt {n : ℕ} {idx : ℚ} (h0 : 0 ≤ idx) (h1 : idx ≤ (n : ℚ) - 1) :
    ⌊idx⌋.toNat < n := by
  have hn : 1 ≤ n := by
    by_contra h
    have hn0 : n = 0 := by omega
    subst hn0
    simp only [Nat.cast_zero] at h1
    linarith
  have h2 : ⌊idx⌋ ≤ (n : ℤ) - 1 := le_trans (Int.floor_le_ceil idx) (ceil_le_int h1)
  omega

lemma weight_nonneg (idx : ℚ) : 0 ≤ idx - (⌊idx⌋ : ℚ) :=
  sub_nonneg.mpr (Int.floor_le idx)

lemma weight_le_one (idx : ℚ) : idx - (⌊idx⌋ : ℚ) ≤ 1 := by
  have := Int.lt_floor_add_one idx
  linarith

lemma interpAt_ge_floor {s : List ℚ} (hs : s.Sorted (fun a b => a ≤ b)) {idx : ℚ}
    (h0 : 0 ≤ idx) (h1 : idx ≤ (s.length : ℚ) - 1) :
    s.getD ⌊idx⌋.toNat 0 ≤ interpAt s idx := by
  have hij : ⌊idx⌋.toNat ≤ ⌈idx⌉.toNat := Int.toNat_le_toNat (Int.floor_le_ceil idx)
  have hab : s.getD ⌊idx⌋.toNat 0 ≤ s.getD ⌈idx⌉.toNat 0 :=
    sorted_getD_mono hs hij (ceil_toNat_lt h0 h1)
  have key : 0 ≤ (s.getD ⌈idx⌉.toNat 0 - s.getD ⌊idx⌋.toNat 0) * (idx - (⌊idx⌋ : ℚ)) :=
    mul_nonneg (sub_nonneg.mpr hab) (weight_nonneg idx)
  have expand : interpAt s idx =
      s.getD ⌊idx⌋.toNat 0 +
        (s.getD ⌈idx⌉.toNat 0 - s.getD ⌊idx⌋.toNat 0) * (idx - (⌊idx⌋ : ℚ)) := by
    unfold interpAt; ring
  rw [expand]
  linarith

lemma interpAt_le_ceil {s : List ℚ} (hs : s.Sorted (fun a b => a ≤ b)) {idx : ℚ}
    (h0 : 0 ≤ idx) (h1 : idx ≤ (s.length : ℚ) - 1) :
    interpAt s idx ≤ s.getD ⌈idx⌉.toNat 0 := by
  have hij : ⌊idx⌋.toNat ≤ ⌈idx⌉.toNat := Int.toNat_le_toNat (Int.floor_le_ceil idx)
  have hab : s.getD ⌊idx⌋.toNat 0 ≤ s.getD ⌈idx⌉.toNat 0 :=
    sorted_getD_mono hs hij (ceil_toNat_lt h0 h1)
  have key : 0 ≤ (s.getD ⌈idx⌉.toNat 0 - s.getD ⌊idx⌋.toNat 0) * (1 - (idx - (⌊idx⌋ : ℚ))) :=
    mul_nonneg (sub_nonneg.mpr hab) (by linarith [weight_le_one idx])
  have expand : s.getD ⌈idx⌉.toNat 0 - interpAt s idx =
      (s.getD ⌈idx⌉.toNat 0 - s.getD ⌊idx⌋.toNat 0) * (1 - (idx - (⌊idx⌋ : ℚ))) := by
    unfold interpAt; ring
  linarith [expand ▸ key]

lemma ceil_of_not_int {a : ℚ} (h : (⌊a⌋ : ℚ) < a) : ⌈a⌉ = ⌊a⌋ + 1 := by
  rw [Int.ceil_eq_iff]
  constructor
  · push_cast
    linarith
  · push_cast
    linarith [Int.lt_floor_add_one a]

lemma interpAt_mono {s : List ℚ} (hs : s.Sorted (fun a b => a ≤ b)) {a b : ℚ}
    (ha0 : 0 ≤ a) (hab : a ≤ b) (hb1 : b ≤ (s.length : ℚ) - 1) :
    interpAt s a ≤ interpAt s b := by
  have hb0 : 0 ≤ b := le_trans ha0 hab
  have ha1 : a ≤ (s.length : ℚ) - 1 := le_trans hab hb1
  have hfab : ⌊a⌋ ≤ ⌊b⌋ := Int.floor_le_floor hab
  rcases lt_or_eq_of_le hfab with hlt | heq
  · -- the floors differ: go through s[⌈a⌉] ≤ s[⌊b⌋]
    have h1 : interpAt s a ≤ s.getD ⌈a⌉.toNat 0 := interpAt_le_ceil hs ha0 ha1
    have h3 : s.getD ⌊b⌋.toNat 0 ≤ interpAt s b := interpAt_ge_floor hs hb0 hb1
    have hceil : ⌈a⌉ ≤ ⌊b⌋ := le_trans (Int.ceil_le_floor_add_one a) hlt
    have h2 : s.getD ⌈a⌉.toNat 0 ≤ s.getD ⌊b⌋.toNat 0 :=
      sorted_getD_mono hs (Int.toNat_le_toNat hceil) (floor_toNat_lt hb0 hb1)
    linarith
  · by_cases hint : (⌊a⌋ : ℚ) = a
    · -- `a` is integral: the interpolation collapses to `s[⌊a⌋]`
      have hw : a - (⌊a⌋ : ℚ) = 0 := by linarith
      have hcollapse : interpAt s a = s.getD ⌊a⌋.toNat 0 := by
        unfold interpAt
        rw [hw]
        ring
      have h3 : s.getD ⌊b⌋.toNat 0 ≤ interpAt s b := interpAt_ge_floor hs hb0 hb1
      rw [hcollapse, heq]
      exact h3
    · -- both fractional with the same floor and the same ceiling
      have hfa : (⌊a⌋ : ℚ) < a := lt_of_le_of_ne (Int.floor_le a) hint
      have hfb : (⌊b⌋ : ℚ) < b := by
        rw [← heq]
        calc (⌊a⌋ : ℚ) < a := hfa
        _ ≤ b := hab
      have hca : ⌈a⌉ = ⌊a⌋ + 1 := ceil_of_not_int hfa
      have hcb : ⌈b⌉ = ⌊b⌋ + 1 := ceil_of_not_int hfb
      have hceq : ⌈b⌉ = ⌈a⌉ := by rw [hca, hcb, heq]
      have hhi : ⌈b⌉.toNat < s.length := ceil_toNat_lt hb0 hb1
      have hle : s.getD ⌊b⌋.toNat 0 ≤ s.getD ⌈b⌉.toNat 0 :=
        sorted_getD_mono hs (Int.toNat_le_toNat (Int.floor_le_ceil b)) hhi
      have hdiff : interpAt s b - interpAt s a =
          (b - a) * (s.getD ⌈b⌉.toNat 0 - s.getD ⌊b⌋.toNat 0) := by
        unfold interpAt
        rw [heq, hceq]
        ring
      have key : 0 ≤ (b - a) * (s.getD ⌈b⌉.toNat 0 - s.getD ⌊b⌋.toNat 0) :=
        mul_nonneg (by linarith) (sub_nonneg.mpr hle)
      linarith

lemma pct_index_nonneg {n : ℕ} (hn : 1 ≤ n) {p : ℚ} (hp : 0 ≤ p) :
    0 ≤ p / 100 * ((n : ℚ) - 1) := by
  have : (1 : ℚ) ≤ (n : ℚ) := by exact_mod_cast hn
  have := div_nonneg hp (by norm_num : (0 : ℚ) ≤ 100)
  nlinarith

lemma pct_index_le {n : ℕ} {p : ℚ} (hp : p ≤ 100) (hp0 : 0 ≤ p) (hn : 1 ≤ n) :
    p / 100 * ((n : ℚ) - 1) ≤ (n : ℚ) - 1 := by
  have h1 : (1 : ℚ) ≤ (n : ℚ) := by exact_mod_cast hn
  have h2 : p / 100 ≤ 1 := by linarith [div_le_one_of_le hp (by norm_num : (0 : ℚ) ≤ 100)]
  nlinarith

lemma pct_index_mono {n : ℕ} (hn : 1 ≤ n) {p q : ℚ} (hpq : p ≤ q) :
    p / 100 * ((n : ℚ) - 1) ≤ q / 100 * ((n : ℚ) - 1) := by
  have h1 : (1 : ℚ) ≤ (n : ℚ) := by exact_mod_cast hn
  have h2 : p / 100 ≤ q / 100 := by linarith
  nlinarith

lemma calculatePercentile_mono (v : List ℚ) (hv : v ≠ []) {p q : ℚ}
    (hp : 0 ≤ p) (hpq : p ≤ q) (hq : q ≤ 100) :
    calculatePercentile v p ≤ calculatePercentile v q := by
  have hn : 1 ≤ (sortAsc v).length := by
    rw [sortAsc_length]
    exact List.length_pos.mpr hv
  rw [calculatePercentile_eq_interpAt v hv p, calculatePercentile_eq_interpAt v hv q]
  exact interpAt_mono (sortAsc_sorted v)
    (pct_index_nonneg hn hp)
    (pct_index_mono hn hpq)
    (pct_index_le hq (le_trans hp hpq) hn)
lemma calculateMedian_eq_percentile (v : List ℚ) :
    calculateMedian v = calculatePercentile v 50 := by
  rcases eq_or_ne v [] with rfl | hv
  · rfl
  · have hlen : ¬(v.length = 0) := by simpa [List.length_eq_zero] using hv
    have hn : 1 ≤ (sortAsc v).length := by
      rw [sortAsc_length]; exact List.length_pos.mpr hv
    rw [calculatePercentile_eq_interpAt v hv 50]
    simp only [calculateMedian, if_neg hlen]
    rcases Nat.even_or_odd (sortAsc v).length with he | ho
    · -- even length: n = 2 * t with t ≥ 1
      obtain ⟨t, ht⟩ := he
      have ht2 : (sortAsc v).length = 2 * t := by omega
      have ht1 : 1 ≤ t := by omega
      have hmod : (sortAsc v).length % 2 = 0 := by omega
      rw [if_pos hmod]
      have hidx : (50 : ℚ) / 100 * (((sortAsc v).length : ℚ) - 1) = (t : ℚ) - 1/2 := by
        rw [ht2]; push_cast; ring
      rw [hidx]
      have hfloor : ⌊(t : ℚ) - 1/2⌋ = (t : ℤ) - 1 := by
        rw [Int.floor_eq_iff]
        constructor
        · push_cast; linarith
        · push_cast; linarith
      have hceil : ⌈(t : ℚ) - 1/2⌉ = (t : ℤ) := by
        rw [Int.ceil_eq_iff]
        constructor
        · push_cast
          have : (1:ℚ) ≤ (t:ℚ) := by exact_mod_cast ht1
          linarith
        · push_cast; linarith
      have htn1 : ((t : ℤ) - 1).toNat = t - 1 := by omega
      have htn : ((t : ℤ)).toNat = t := by omega
      have hmid : (sortAsc v).length / 2 = t := by omega
      unfold interpAt
      rw [hfloor, hceil, htn1, htn, hmid]
      push_cast
      ring
    · -- odd length: n = 2 * t + 1
      obtain ⟨t, ht⟩ := ho
      have hmod : ¬((sortAsc v).length % 2 = 0) := by omega
      rw [if_neg hmod]
      have hidx : (50 : ℚ) / 100 * (((sortAsc v).length : ℚ) - 1) = (t : ℚ) := by
        rw [ht]; push_cast; ring
      rw [hidx]
      have hfloor : ⌊(t : ℚ)⌋ = (t : ℤ) := Int.floor_natCast t
      have hceil : ⌈(t : ℚ)⌉ = (t : ℤ) := Int.ceil_natCast t
      have htn : ((t : ℤ)).toNat = t := by omega
      have hmid : (sortAsc v).length / 2 = t := by omega
      unfold interpAt
      rw [hfloor, hceil, htn, hmid]
      push_cast
      ring

lemma calculatePercentile_ge_lower (v : List ℚ) (hv : v ≠ []) {p : ℚ}
    (hp0 : 0 ≤ p) (hp1 : p ≤ 100) {mn : ℚ} (hmn : ∀ x ∈ v, mn ≤ x) :
    mn ≤ calculatePercentile v p := by
  have hn : 1 ≤ (sortAsc v).length := by
    rw [sortAsc_length]; exact List.length_pos.mpr hv
  rw [calculatePercentile_eq_interpAt v hv p]
  have h0 := pct_index_nonneg hn hp0
  have h1 := pct_index_le hp1 hp0 hn
  have hgd : (sortAsc v).getD (⌊p / 100 * (((sortAsc v).length : ℚ) - 1)⌋).toNat 0 ∈ v := by
    rw [← sortAsc_mem]
    exact getD_mem_of_lt (floor_toNat_lt h0 h1)
  exact le_trans (hmn _ hgd) (interpAt_ge_floor (sortAsc_sorted v) h0 h1)

lemma calculatePercentile_le_upper (v : List ℚ) (hv : v ≠ []) {p : ℚ}
    (hp0 : 0 ≤ p) (hp1 : p ≤ 100) {mx : ℚ} (hmx : ∀ x ∈ v, x ≤ mx) :
    calculatePercentile v p ≤ mx := by
  have hn : 1 ≤ (sortAsc v).length := by
    rw [sortAsc_length]; exact List.length_pos.mpr hv
  rw [calculatePercentile_eq_interpAt v hv p]
  have h0 := pct_index_nonneg hn hp0
  have h1 := pct_index_le hp1 hp0 hn
  have hgd : (sortAsc v).getD (⌈p / 100 * (((sortAsc v).length : ℚ) - 1)⌉).toNat 0 ∈ v := by
    rw [← sortAsc_mem]
    exact getD_mem_of_lt (ceil_toNat_lt h0 h1)
  exact le_trans (interpAt_le_ceil (sortAsc_sorted v) h0 h1) (hmx _ hgd)

lemma interpAt_natCast (s : List ℚ) (k : ℕ) : interpAt s (k : ℚ) = s.getD k 0 := by
  unfold interpAt
  rw [Int.floor_natCast, Int.ceil_natCast, Int.toNat_natCast]
  ring

/-- Claim C2: for every non-empty `v` and percentile `0 ≤ p ≤ 100`,
`calculatePercentile` sorts `v` ascending, interpolates at the fractional
index `(p/100)*(n-1)` between the floor and ceiling positions, both indices
stay in bounds, the result is exactly the element at the index whenever the
index is integral, and `calculatePercentile [1,2,3,4] 25 = 1.75`. -/
theorem calculatePercentile_interpolation (v : List ℚ) (hv : v ≠ []) (p : ℚ)
    (hp0 : 0 ≤ p) (hp1 : p ≤ 100) :
    (sortAsc v).Sorted (fun a b => a ≤ b) ∧ (sortAsc v).Perm v ∧
    (⌊p / 100 * (((sortAsc v).length : ℚ) - 1)⌋).toNat < (sortAsc v).length ∧
    (⌈p / 100 * (((sortAsc v).length : ℚ) - 1)⌉).toNat < (sortAsc v).length ∧
    calculatePercentile v p = interpAt (sortAsc v) (p / 100 * (((sortAsc v).length : ℚ) - 1)) ∧
    (∀ k : ℕ, p / 100 * (((sortAsc v).length : ℚ) - 1) = (k : ℚ) →
      calculatePercentile v p = (sortAsc v).getD k 0) ∧
    calculatePercentile [1, 2, 3, 4] 25 = 7/4 := by
  have hn : 1 ≤ (sortAsc v).length := by
    rw [sortAsc_length]; exact List.length_pos.mpr hv
  have h0 := pct_index_nonneg hn hp0
  have h1 := pct_index_le hp1 hp0 hn
  refine ⟨sortAsc_sorted v, sortAsc_perm v, floor_toNat_lt h0 h1, ceil_toNat_lt h0 h1,
    calculatePercentile_eq_interpAt v hv p, ?_, ?_⟩
  · intro k hk
    rw [calculatePercentile_eq_interpAt v hv p, hk, interpAt_natCast]
  · have h : ⌈(3/4 : ℚ)⌉ = 1 := by rw [Int.ceil_eq_iff]; norm_num
    norm_num [calculatePercentile, sortAsc, List.insertionSort, List.orderedInsert, h]

/-- Claim C5: for every non-empty `v` the statistics are ordered
`min ≤ p25 ≤ median ≤ p75 ≤ max` (min and max are finite numbers here). -/
theorem statistics_quartile_ordering (v : List ℚ) (hv : v ≠ []) :
    ∃ mn mx : ℚ, (calculateStatistics v).min = JNum.num mn ∧
      (calculateStatistics v).max = JNum.num mx ∧
      mn ≤ (calculateStatistics v).p25 ∧
      (calculateStatistics v).p25 ≤ (calculateStatistics v).median ∧
      (calculateStatistics v).median ≤ (calculateStatistics v).p75 ∧
      (calculateStatistics v).p75 ≤ mx := by
  obtain ⟨mn, hmneq, _, hmnall⟩ := jsMinList_spec v hv
  obtain ⟨mx, hmxeq, _, hmxall⟩ := jsMaxList_spec v hv
  refine ⟨mn, mx, ?_, ?_, ?_, ?_, ?_, ?_⟩
  · simpa [calculateStatistics] using hmneq
  · simpa [calculateStatistics] using hmxeq
  · simp only [calculateStatistics]
    exact calculatePercentile_ge_lower v hv (by norm_num) (by norm_num) hmnall
  · simp only [calculateStatistics]
    rw [calculateMedian_eq_percentile]
    exact calculatePercentile_mono v hv (by norm_num) (by norm_num) (by norm_num)
  · simp only [calculateStatistics]
    rw [calculateMedian_eq_percentile]
    exact calculatePercentile_mono v hv (by norm_num) (by norm_num) (by norm_num)
  · simp only [calculateStatistics]
    exact calculatePercentile_le_upper v hv (by norm_num) (by norm_num) hmxall

/-- Claim C7: the aggregator invoked over zero result records fails with
the input-validation error and produces no `StatisticalAnalysis`. -/
theorem aggregateResults_empty_error (timestamp : ℚ) (dir : String) :
    aggregateResults [] timestamp dir = Except.error "No results found in directory" := rfl

/-- Claim C10: on the empty sequence every statistics function returns `0`
rather than raising, and `calculateStatistics []` has `min = Infinity` and
`max = -Infinity` (from `Math.min()` / `Math.max()` of no arguments) while
every other field is `0`. -/
theorem statistics_empty_defaults :
    calculateMean ([] : List ℚ) = 0 ∧ calculateMedian ([] : List ℚ) = 0 ∧
    calculateStdDev ([] : List ℚ) = 0 ∧ (∀ p : ℚ, calculatePercentile [] p = 0) ∧
    (calculateStatistics ([] : List ℚ)).min = JNum.posInf ∧
    (calculateStatistics ([] : List ℚ)).max = JNum.negInf ∧
    (calculateStatistics ([] : List ℚ)).mean = 0 ∧
    (calculateStatistics ([] : List ℚ)).median = 0 ∧
    (calculateStatistics ([] : List ℚ)).stdDev = 0 ∧
    (calculateStatistics ([] : List ℚ)).p25 = 0 ∧
    (calculateStatistics ([] : List ℚ)).p75 = 0 ∧
    (calculateStatistics ([] : List ℚ)).p95 = 0 ∧
    (calculateStatistics ([] : List ℚ)).p99 = 0 :=
  ⟨rfl, rfl, rfl, fun _ => rfl, rfl, rfl, rfl, rfl, rfl, rfl, rfl, rfl, rfl⟩

/-! ### Standard deviation (claim C6) -/

lemma calculateMean_eq (v : List ℚ) (hv : v ≠ []) :
    calculateMean v = v.sum / (v.length : ℚ) := by
  have hlen : ¬(v.length = 0) := by simpa [List.length_eq_zero] using hv
  simp only [calculateMean, if_neg hlen, ← List.sum_eq_foldl]

lemma cast_list_sum (l : List ℚ) :
    ((l.sum : ℚ) : ℝ) = (l.map (Rat.cast : ℚ → ℝ)).sum := by
  induction l with
  | nil => simp
  | cons x xs ih => simp [ih]

/-- The population standard deviation as the specification words it: the
square root of the mean of the squared deviations from the arithmetic mean,
with divisor equal to the count (not count minus one). -/
noncomputable def specPopulationStdDev (v : List ℚ) : ℝ :=
  Real.sqrt
    ((v.map (fun x : ℚ => ((x : ℝ) - (v.map (Rat.cast : ℚ → ℝ)).sum / (v.length : ℝ)) ^ 2)).sum /
      (v.length : ℝ))

/-- Claim C6: `calculateStdDev` computes the population standard deviation
(square root of the mean of squared deviations from the mean, with divisor
the count, not count minus one), and in particular
`calculateStdDev [5,5,5,5] = 0` and `calculateMean [5,5,5,5] = 5`. -/
theorem calculateStdDev_population :
    (∀ v : List ℚ, v ≠ [] → calculateStdDev v = specPopulationStdDev v) ∧
    calculateStdDev [5, 5, 5, 5] = 0 ∧ calculateMean [5, 5, 5, 5] = 5 := by
  refine ⟨?_, ?_, ?_⟩
  · intro v hv
    have hlen : ¬(v.length = 0) := by simpa [List.length_eq_zero] using hv
    have hmap : v.map (fun val => (val - calculateMean v) ^ 2) ≠ [] := by
      simpa using hv
    have hmu : ((calculateMean v : ℚ) : ℝ) = (v.map (Rat.cast : ℚ → ℝ)).sum / (v.length : ℝ) := by
      rw [calculateMean_eq v hv, Rat.cast_div, cast_list_sum]
      norm_cast
    have hfun : (fun x : ℚ => (((x - calculateMean v) ^ 2 : ℚ) : ℝ)) =
        (fun x : ℚ => ((x : ℝ) - (v.map (Rat.cast : ℚ → ℝ)).sum / (v.length : ℝ)) ^ 2) := by
      funext x
      push_cast
      rw [hmu]
    simp only [calculateStdDev, if_neg hlen, specPopulationStdDev]
    congr 1
    rw [calculateMean_eq _ hmap, List.length_map, Rat.cast_div, cast_list_sum, List.map_map]
    congr 1
    simp only [Function.comp_def]
    rw [hfun]
  · have hmean : calculateMean [5, 5, 5, 5] = 5 := by norm_num [calculateMean]
    have : calculateStdDev [5, 5, 5, 5] =
        Real.sqrt ((calculateMean ([5, 5, 5, 5].map (fun val => (val - calculateMean [5, 5, 5, 5]) ^ 2)) : ℚ) : ℝ) := rfl
    rw [this, hmean]
    norm_num [calculateMean]
  · norm_num [calculateMean]

theorem calculateStdDev_population_witness :
    calculateStdDev [1, 2] = specPopulationStdDev [1, 2] :=
  calculateStdDev_population.1 [1, 2] (by simp)

theorem calculatePercentile_interpolation_witness :
    calculatePercentile ([1, 2, 3, 4] : List ℚ) 25 = 7/4 :=
  (calculatePercentile_interpolation [1, 2, 3, 4] (by simp) 25 (by norm_num)
    (by norm_num)).2.2.2.2.2.2

theorem statistics_quartile_ordering_witness :
    ∃ mn mx : ℚ, (calculateStatistics [3, 1, 2]).min = JNum.num mn ∧
      (calculateStatistics [3, 1, 2]).max = JNum.num mx ∧
      mn ≤ (calculateStatistics [3, 1, 2]).p25 ∧
      (calculateStatistics [3, 1, 2]).p25 ≤ (calculateStatistics [3, 1, 2]).median ∧
      (calculateStatistics [3, 1, 2]).median ≤ (calculateStatistics [3, 1, 2]).p75 ∧
      (calculateStatistics [3, 1, 2]).p75 ≤ mx :=
  statistics_quartile_ordering [3, 1, 2] (by simp)

/-! ### Aggregation (claims C1, C4, C7) -/

lemma mem_bucket (results : List BenchmarkResult) (c : ℚ) (m : TestRunBenchmarkResult) :
    m ∈ bucket results c ↔ m ∈ allMeasurements results ∧ m.concurrency = c := by
  simp [bucket, List.mem_filter]

lemma sortedConcurrencies_nodup (results : List BenchmarkResult) :
    (sortedConcurrencies results).Nodup :=
  (sortAsc_perm _).nodup_iff.mpr (List.nodup_dedup _)

lemma sortedConcurrencies_sorted_lt (results : List BenchmarkResult) :
    (sortedConcurrencies results).Sorted (fun x y => x < y) :=
  List.Sorted.lt_of_le (sortAsc_sorted _) (sortedConcurrencies_nodup results)

lemma mem_sortedConcurrencies (results : List BenchmarkResult) (c : ℚ) :
    c ∈ sortedConcurrencies results ↔ ∃ m ∈ allMeasurements results, m.concurrency = c := by
  simp [sortedConcurrencies, sortAsc_mem, List.mem_dedup, List.mem_map]

lemma aggregateResults_ok (results : List BenchmarkResult) (timestamp : ℚ) (dir : String)
    (hne : results ≠ []) :
    aggregateResults results timestamp dir = Except.ok
      { numberOfTestFiles := (results.headD ⟨0, "", []⟩).numberOfTestFiles
        applicationMode := (results.headD ⟨0, "", []⟩).applicationMode
        sampleSize := results.length
        aggregatedResults := (sortedConcurrencies results).map (aggregatedLevel results)
        metadata := { timestamp := timestamp, benchmarkResultsDir := dir } } := by
  have hlen : ¬(results.length = 0) := by simpa [List.length_eq_zero] using hne
  simp only [aggregateResults, if_neg hlen]

lemma aggregated_map_concurrency (results : List BenchmarkResult) :
    ((sortedConcurrencies results).map (aggregatedLevel results)).map
      (fun level => level.concurrency) = sortedConcurrencies results := by
  rw [List.map_map]
  simp [Function.comp_def, aggregatedLevel]

/-- Claim C1: for every non-empty collection of samples, `aggregateResults`
succeeds and its aggregated results hold exactly one entry per distinct
concurrency value found in any sample, sorted strictly ascending, with each
entry's statistics computed over the bucket of all measurements at that
concurrency across all samples and `sampleCount` the size of that bucket;
in particular two one-measurement samples at concurrency 1 with durations
100 and 200 aggregate to a single level with mean 150 and sampleCount 2. -/
theorem aggregateResults_groups_by_concurrency (results : List BenchmarkResult)
    (timestamp : ℚ) (dir : String) (hne : results ≠ []) :
    ∃ a, aggregateResults results timestamp dir = Except.ok a ∧
      a.sampleSize = results.length ∧
      (a.aggregatedResults.map (fun level => level.concurrency)).Sorted (fun x y => x < y) ∧
      (∀ c : ℚ, c ∈ a.aggregatedResults.map (fun level => level.concurrency) ↔
        ∃ m ∈ allMeasurements results, m.concurrency = c) ∧
      (∀ level ∈ a.aggregatedResults,
        level.durationStats =
          calculateStatistics ((bucket results level.concurrency).map (fun m => m.duration)) ∧
        level.passedStats =
          calculateStatistics ((bucket results level.concurrency).map (fun m => m.passed)) ∧
        level.failedStats =
          calculateStatistics ((bucket results level.concurrency).map (fun m => m.failed)) ∧
        level.sampleCount = (bucket results level.concurrency).length) ∧
      (∃ ex, aggregateResults
          [⟨10, "default", [⟨1, 100, 5, 0, 5⟩]⟩, ⟨10, "default", [⟨1, 200, 5, 0, 5⟩]⟩] 0 "dir" =
            Except.ok ex ∧
        ex.aggregatedResults.map (fun level => level.concurrency) = [1] ∧
        ∀ level ∈ ex.aggregatedResults,
          level.durationStats.mean = 150 ∧ level.sampleCount = 2) := by
  refine ⟨_, aggregateResults_ok results timestamp dir hne, rfl, ?_, ?_, ?_, ?_⟩
  · dsimp only
    rw [aggregated_map_concurrency]
    exact sortedConcurrencies_sorted_lt results
  · intro c
    dsimp only
    rw [aggregated_map_concurrency]
    exact mem_sortedConcurrencies results c
  · intro level hlevel
    dsimp only at hlevel
    obtain ⟨c, hc, rfl⟩ := List.mem_map.mp hlevel
    exact ⟨rfl, rfl, rfl, by simp [aggregatedLevel]⟩
  · have hb : (bucket [⟨10, "default", [⟨1, 100, 5, 0, 5⟩]⟩, ⟨10, "default", [⟨1, 200, 5, 0, 5⟩]⟩]
        1).map (fun m => m.duration) = [100, 200] := by decide
    have hc : sortedConcurrencies
        [⟨10, "default", [⟨1, 100, 5, 0, 5⟩]⟩, ⟨10, "default", [⟨1, 200, 5, 0, 5⟩]⟩] = [1] := by
      norm_num [sortedConcurrencies, allMeasurements, sortAsc, List.insertionSort,
        List.orderedInsert, List.dedup]
    refine ⟨_, aggregateResults_ok _ 0 "dir" (by simp), ?_, ?_⟩
    · dsimp only
      rw [hc]
      simp [aggregatedLevel]
    · intro level hlevel
      dsimp only at hlevel
      rw [hc] at hlevel
      simp only [List.map_cons, List.map_nil, List.mem_singleton] at hlevel
      subst hlevel
      constructor
      · show (calculateStatistics _).mean = 150
        rw [hb]
        show calculateMean [100, 200] = 150
        norm_num [calculateMean]
      · show ((bucket _ _).map _).length = 2
        rw [hb]
        rfl

theorem aggregateResults_groups_by_concurrency_witness :
    ∃ ex, aggregateResults
        [⟨10, "default", [⟨1, 100, 5, 0, 5⟩]⟩, ⟨10, "default", [⟨1, 200, 5, 0, 5⟩]⟩] 0 "dir" =
          Except.ok ex ∧
      ex.aggregatedResults.map (fun level => level.concurrency) = [1] ∧
      ∀ level ∈ ex.aggregatedResults,
        level.durationStats.mean = 150 ∧ level.sampleCount = 2 := by
  obtain ⟨a, -, -, -, -, -, hex⟩ :=
    aggregateResults_groups_by_concurrency
      [⟨10, "default", [⟨1, 100, 5, 0, 5⟩]⟩, ⟨10, "default", [⟨1, 200, 5, 0, 5⟩]⟩] 0 "dir"
      (by simp)
  exact hex

/-- Claim C4 fails on the code: `aggregateResults` performs no
concurrency-range consistency check.  In this concrete input the first
sample holds a measurement at concurrency 2 that the second sample lacks,
yet aggregation succeeds instead of failing fast. -/
theorem aggregateResults_accepts_inconsistent_ranges :
    (∃ m ∈ (⟨10, "default", [⟨1, 100, 5, 0, 5⟩, ⟨2, 150, 5, 0, 5⟩]⟩ : BenchmarkResult).results,
      m.concurrency = 2) ∧
    (∀ m ∈ (⟨10, "default", [⟨1, 110, 5, 0, 5⟩]⟩ : BenchmarkResult).results,
      m.concurrency ≠ 2) ∧
    (aggregateResults
        [⟨10, "default", [⟨1, 100, 5, 0, 5⟩, ⟨2, 150, 5, 0, 5⟩]⟩,
          ⟨10, "default", [⟨1, 110, 5, 0, 5⟩]⟩] 0 "dir").isOk = true := by
  refine ⟨⟨⟨2, 150, 5, 0, 5⟩, by simp, rfl⟩, ?_, rfl⟩
  intro m hm
  simp only [List.mem_singleton] at hm
  subst hm
  decide

/-- Claim C4 (amended): `aggregateResults` performs no concurrency-range
consistency validation.  For any collection of samples whose ranges are
inconsistent (a measurement of one sample has a concurrency level absent
from another sample) aggregation succeeds, and no sample is dropped: every
measurement of every sample lands in the bucket of its concurrency value,
which appears among the aggregated levels with `sampleCount` counting
exactly that bucket's measurements. -/
theorem aggregateResults_no_range_validation (results : List BenchmarkResult)
    (timestamp : ℚ) (dir : String) (r1 r2 : BenchmarkResult) (m1 : TestRunBenchmarkResult)
    (hr1 : r1 ∈ results) (hr2 : r2 ∈ results) (hm1 : m1 ∈ r1.results)
    (hmiss : ∀ m ∈ r2.results, m.concurrency ≠ m1.concurrency) :
    (aggregateResults results timestamp dir).isOk = true ∧
    ∃ a, aggregateResults results timestamp dir = Except.ok a ∧
      ∀ r ∈ results, ∀ m ∈ r.results,
        m ∈ bucket results m.concurrency ∧
        ∃ level ∈ a.aggregatedResults, level.concurrency = m.concurrency ∧
          level.sampleCount = (bucket results m.concurrency).length := by
  have hne : results ≠ [] := List.ne_nil_of_mem hr1
  refine ⟨by rw [aggregateResults_ok results timestamp dir hne]; rfl,
    _, aggregateResults_ok results timestamp dir hne, ?_⟩
  intro r hr m hm
  have hmem : m ∈ allMeasurements results := by
    rw [allMeasurements, List.mem_flatMap]
    exact ⟨r, hr, hm⟩
  refine ⟨(mem_bucket results m.concurrency m).mpr ⟨hmem, rfl⟩, ?_⟩
  refine ⟨aggregatedLevel results m.concurrency, ?_, rfl, ?_⟩
  · dsimp only
    exact List.mem_map_of_mem _
      ((mem_sortedConcurrencies results m.concurrency).mpr ⟨m, hmem, rfl⟩)
  · simp [aggregatedLevel]

theorem aggregateResults_no_range_validation_witness :
    (aggregateResults [⟨10, "default", [⟨1, 100, 5, 0, 5⟩, ⟨2, 150, 5, 0, 5⟩]⟩,
        ⟨10, "default", [⟨1, 110, 5, 0, 5⟩]⟩] 0 "dir").isOk = true ∧
    ∃ a, aggregateResults [⟨10, "default", [⟨1, 100, 5, 0, 5⟩, ⟨2, 150, 5, 0, 5⟩]⟩,
        ⟨10, "default", [⟨1, 110, 5, 0, 5⟩]⟩] 0 "dir" = Except.ok a ∧
      ∀ r ∈ [(⟨10, "default", [⟨1, 100, 5, 0, 5⟩, ⟨2, 150, 5, 0, 5⟩]⟩ : BenchmarkResult),
          ⟨10, "default", [⟨1, 110, 5, 0, 5⟩]⟩], ∀ m ∈ r.results,
        m ∈ bucket [⟨10, "default", [⟨1, 100, 5, 0, 5⟩, ⟨2, 150, 5, 0, 5⟩]⟩,
          ⟨10, "default", [⟨1, 110, 5, 0, 5⟩]⟩] m.concurrency ∧
        ∃ level ∈ a.aggregatedResults, level.concurrency = m.concurrency ∧
          level.sampleCount = (bucket [⟨10, "default", [⟨1, 100, 5, 0, 5⟩, ⟨2, 150, 5, 0, 5⟩]⟩,
            ⟨10, "default", [⟨1, 110, 5, 0, 5⟩]⟩] m.concurrency).length :=
  aggregateResults_no_range_validation
    [⟨10, "default", [⟨1, 100, 5, 0, 5⟩, ⟨2, 150, 5, 0, 5⟩]⟩,
      ⟨10, "default", [⟨1, 110, 5, 0, 5⟩]⟩] 0 "dir"
    ⟨10, "default", [⟨1, 100, 5, 0, 5⟩, ⟨2, 150, 5, 0, 5⟩]⟩
    ⟨10, "default", [⟨1, 110, 5, 0, 5⟩]⟩ ⟨2, 150, 5, 0, 5⟩
    (by simp) (by simp) (by simp)
    (by intro m hm; simp only [List.mem_singleton] at hm; subst hm; decide)

lemma benchmarkAux_all_ok {E M : Type} (exec : ℕ → Except E M) (ls : List ℕ)
    (h : ∀ i ∈ ls, ∃ m, exec i = Except.ok m) :
    (benchmarkAux exec ls).1.map Prod.fst = ls ∧ (benchmarkAux exec ls).2 = none ∧
      ∀ p ∈ (benchmarkAux exec ls).1, exec p.1 = Except.ok p.2 := by
  induction ls with
  | nil => exact ⟨rfl, rfl, by intro p hp; cases hp⟩
  | cons i rest ih =>
      obtain ⟨m, hm⟩ := h i (List.mem_cons_self i rest)
      obtain ⟨ih1, ih2, ih3⟩ := ih (fun j hj => h j (List.mem_cons_of_mem i hj))
      simp only [benchmarkAux, hm]
      refine ⟨by simp [ih1], ih2, ?_⟩
      intro p hp
      rcases List.mem_cons.mp hp with rfl | hp2
      · exact hm
      · exact ih3 p hp2

lemma benchmarkAux_fail {E M : Type} (exec : ℕ → Except E M) (good : List ℕ) (k : ℕ)
    (rest : List ℕ) (e : E) (hgood : ∀ i ∈ good, ∃ m, exec i = Except.ok m)
    (hk : exec k = Except.error e) :
    (benchmarkAux exec (good ++ k :: rest)).1.map Prod.fst = good ∧
      (benchmarkAux exec (good ++ k :: rest)).2 = some (k, e) ∧
      ∀ p ∈ (benchmarkAux exec (good ++ k :: rest)).1, exec p.1 = Except.ok p.2 := by
  induction good with
  | nil =>
      refine ⟨by simp [benchmarkAux, hk], by simp [benchmarkAux, hk], ?_⟩
      intro p hp
      simp [benchmarkAux, hk] at hp
  | cons i g ih =>
      obtain ⟨m, hm⟩ := hgood i (List.mem_cons_self i g)
      obtain ⟨ih1, ih2, ih3⟩ := ih (fun j hj => hgood j (List.mem_cons_of_mem i hj))
      simp only [List.cons_append, benchmarkAux, hm]
      refine ⟨by simp [ih1], ih2, ?_⟩
      intro p hp
      rcases List.mem_cons.mp hp with rfl | hp2
      · exact hm
      · exact ih3 p hp2

lemma range'_split (k max : ℕ) (h1 : 1 ≤ k) (h2 : k ≤ max) :
    List.range' 1 max = List.range' 1 (k - 1) ++ k :: List.range' (k + 1) (max - k) := by
  have hk : 1 + 1 * (k - 1) = k := by omega
  have hmax : max - k + 1 + (k - 1) = max := by omega
  calc List.range' 1 max = List.range' 1 (max - k + 1 + (k - 1)) := by rw [hmax]
  _ = List.range' 1 (k - 1) ++ List.range' (1 + 1 * (k - 1)) (max - k + 1) :=
      (List.range'_append 1 (k - 1) (max - k + 1) 1).symm
  _ = List.range' 1 (k - 1) ++ k :: List.range' (k + 1) (max - k) := by
      rw [List.range'_succ, hk]

/-- Claim C3: the `benchmark` generator invokes the executor exactly once
per concurrency level `1, 2, ..., maxConcurrency` in strictly ascending
order; when every level succeeds all levels are invoked and yielded in
order, and when the executor first fails at level `k ≤ maxConcurrency` the
generator has yielded exactly the `k - 1` measurements of levels
`1 .. k-1`, propagates the failure, and neither retries level `k` nor
invokes any level above `k`. -/
theorem benchmark_sweep_order_and_abort {E M : Type} (exec : ℕ → Except E M)
    (maxConcurrency : ℕ) (hmax : 1 ≤ maxConcurrency) :
    ((∀ i, 1 ≤ i → i ≤ maxConcurrency → ∃ m, exec i = Except.ok m) →
      (benchmark exec maxConcurrency).1.map Prod.fst = List.range' 1 maxConcurrency ∧
      (benchmark exec maxConcurrency).2 = none ∧
      (∀ p ∈ (benchmark exec maxConcurrency).1, exec p.1 = Except.ok p.2) ∧
      invokedLevels (benchmark exec maxConcurrency) = List.range' 1 maxConcurrency) ∧
    (∀ k e, 1 ≤ k → k ≤ maxConcurrency →
      (∀ i, 1 ≤ i → i < k → ∃ m, exec i = Except.ok m) → exec k = Except.error e →
      (benchmark exec maxConcurrency).1.map Prod.fst = List.range' 1 (k - 1) ∧
      (benchmark exec maxConcurrency).1.length = k - 1 ∧
      (∀ p ∈ (benchmark exec maxConcurrency).1, exec p.1 = Except.ok p.2) ∧
      (benchmark exec maxConcurrency).2 = some (k, e) ∧
      invokedLevels (benchmark exec maxConcurrency) = List.range' 1 k) := by
  constructor
  · intro hall
    obtain ⟨h1, h2, h3⟩ := benchmarkAux_all_ok exec (List.range' 1 maxConcurrency)
      (fun i hi => by
        have hm := List.mem_range'_1.mp hi
        exact hall i hm.1 (by omega))
    exact ⟨h1, h2, h3, by simp [invokedLevels, benchmark] at h1 h2 ⊢; simp [h1, h2]⟩
  · intro k e hk1 hk2 hgood hke
    have hsplit := range'_split k maxConcurrency hk1 hk2
    have hgood' : ∀ i ∈ List.range' 1 (k - 1), ∃ m, exec i = Except.ok m := by
      intro i hi
      have hm := List.mem_range'_1.mp hi
      exact hgood i hm.1 (by omega)
    have key := benchmarkAux_fail exec (List.range' 1 (k - 1)) k
      (List.range' (k + 1) (maxConcurrency - k)) e hgood' hke
    rw [← hsplit] at key
    obtain ⟨k1, k2, k3⟩ := key
    have hb : benchmark exec maxConcurrency = benchmarkAux exec (List.range' 1 maxConcurrency) := rfl
    have hlen : (benchmark exec maxConcurrency).1.length = k - 1 := by
      have := congrArg List.length k1
      rw [List.length_map, List.length_range'] at this
      rw [hb]
      exact this
    refine ⟨hb ▸ k1, hlen, hb ▸ k3, hb ▸ k2, ?_⟩
    have hsplitk := range'_split k k hk1 (le_refl k)
    simp only [Nat.sub_self] at hsplitk
    rw [invokedLevels, hb, k1, k2, hsplitk]
    simp [List.range']

theorem benchmark_sweep_order_and_abort_witness :
    (benchmark (fun i => if i ≤ 2 then Except.ok i else Except.error "boom") 3).1.map Prod.fst =
        List.range' 1 (3 - 1) ∧
    (benchmark (fun i => if i ≤ 2 then Except.ok i else Except.error "boom") 3).1.length = 3 - 1 ∧
    (∀ p ∈ (benchmark (fun i => if i ≤ 2 then Except.ok i else Except.error "boom") 3).1,
      (fun i => if i ≤ 2 then Except.ok i else Except.error "boom") p.1 = Except.ok p.2) ∧
    (benchmark (fun i => if i ≤ 2 then Except.ok i else Except.error "boom") 3).2 =
        some (3, "boom") ∧
    invokedLevels (benchmark (fun i => if i ≤ 2 then Except.ok i else Except.error "boom") 3) =
      List.range' 1 3 :=
  (benchmark_sweep_order_and_abort (fun i => if i ≤ 2 then Except.ok i else Except.error "boom")
      3 (by decide)).2 3 "boom" (by decide) (le_refl 3)
    (fun i h1 h2 => ⟨i, by simp [show i ≤ 2 by omega]⟩) rfl

lemma bestByMean_foldl_first_min :
    ∀ (rest : List AggregatedResult) (b : AggregatedResult),
      ∃ pre post,
        b :: rest = pre ++ (rest.foldl (fun best current =>
          if current.durationStats.mean < best.durationStats.mean then current else best) b) :: post ∧
        (∀ l ∈ pre, (rest.foldl (fun best current =>
          if current.durationStats.mean < best.durationStats.mean then current else best)
            b).durationStats.mean < l.durationStats.mean) ∧
        (∀ l ∈ b :: rest, (rest.foldl (fun best current =>
          if current.durationStats.mean < best.durationStats.mean then current else best)
            b).durationStats.mean ≤ l.durationStats.mean) := by
  intro rest
  induction rest with
  | nil =>
      intro b
      refine ⟨[], [], rfl, ?_, ?_⟩
      · intro l hl
        cases hl
      · intro l hl
        rcases List.mem_cons.mp hl with heq | hl2
        · rw [heq]
          exact le_refl _
        · cases hl2
  | cons c rest ih =>
      intro b
      simp only [List.foldl_cons]
      by_cases hc : c.durationStats.mean < b.durationStats.mean
      · simp only [if_pos hc]
        obtain ⟨pre, post, heq, hstrict, hmin⟩ := ih c
        have hrc := hmin c (List.mem_cons_self c rest)
        refine ⟨b :: pre, post, by rw [List.cons_append, ← heq], ?_, ?_⟩
        · intro l hl
          rcases List.mem_cons.mp hl with hlb | hl2
          · rw [hlb]; linarith
          · exact hstrict l hl2
        · intro l hl
          rcases List.mem_cons.mp hl with hlb | hl2
          · rw [hlb]; linarith
          · exact hmin l hl2
      · simp only [if_neg hc]
        obtain ⟨pre, post, heq, hstrict, hmin⟩ := ih b
        have hbc : b.durationStats.mean ≤ c.durationStats.mean := not_lt.mp hc
        cases pre with
        | nil =>
            simp only [List.nil_append] at heq
            injection heq with h1 h2
            refine ⟨[], c :: rest, ?_, ?_, ?_⟩
            · rw [List.nil_append, ← h1]
            · intro l hl
              cases hl
            · intro l hl
              rcases List.mem_cons.mp hl with hlb | hl2
              · rw [hlb, ← h1]
              · rcases List.mem_cons.mp hl2 with hlc | hl3
                · rw [hlc, ← h1]
                  exact hbc
                · exact hmin l (List.mem_cons_of_mem b hl3)
        | cons p pre2 =>
            rw [List.cons_append] at heq
            injection heq with hp hrest
            have hpb := hstrict p (List.mem_cons_self p pre2)
            have hmeans : p.durationStats.mean = b.durationStats.mean := by rw [← hp]
            refine ⟨b :: c :: pre2, post, ?_, ?_, ?_⟩
            · conv_lhs => rw [hrest]
              rfl
            · intro l hl
              rcases List.mem_cons.mp hl with hlb | hl2
              · rw [hlb]; linarith
              · rcases List.mem_cons.mp hl2 with hlc | hl3
                · rw [hlc]; linarith
                · exact hstrict l (List.mem_cons_of_mem p hl3)
            · intro l hl
              rcases List.mem_cons.mp hl with hlb | hl2
              · rw [hlb]
                exact hmin b (List.mem_cons_self b rest)
              · rcases List.mem_cons.mp hl2 with hlc | hl3
                · rw [hlc]; linarith
                · exact hmin l (List.mem_cons_of_mem b hl3)

/-- Claim C9: for every non-empty, ascending-by-concurrency list of
aggregated levels, `renderSummary`'s fastest-level selection returns a
level of minimal mean duration, and on exact ties the first encountered —
the one with the lowest concurrency — is chosen. -/
theorem bestByMean_first_minimal (levels : List AggregatedResult) (hne : levels ≠ [])
    (hsorted : levels.Pairwise (fun a b => a.concurrency ≤ b.concurrency)) :
    ∃ best, bestByMean levels = some best ∧ best ∈ levels ∧
      (∀ l ∈ levels, best.durationStats.mean ≤ l.durationStats.mean) ∧
      (∀ l ∈ levels, l.durationStats.mean = best.durationStats.mean →
        best.concurrency ≤ l.concurrency) := by
  cases levels with
  | nil => exact absurd rfl hne
  | cons l0 rest =>
      obtain ⟨pre, post, heq, hstrict, hmin⟩ := bestByMean_foldl_first_min rest l0
      refine ⟨_, rfl, ?_, hmin, ?_⟩
      · rw [heq]
        exact List.mem_append_right pre (List.mem_cons_self _ post)
      · intro l hl htie
        rw [heq] at hl hsorted
        rcases List.mem_append.mp hl with hpre | hrpost
        · have := hstrict l hpre
          linarith [htie.le, htie.ge]
        · rcases List.mem_cons.mp hrpost with hlr | hpost
          · rw [hlr]
          · have h2 := (List.pairwise_append.mp hsorted).2.1
            exact (List.pairwise_cons.mp h2).1 l hpost

theorem bestByMean_first_minimal_witness :
    ∃ best, bestByMean
        [⟨1, calculateStatistics [100], calculateStatistics [5], calculateStatistics [0], 1⟩,
          ⟨2, calculateStatistics [100], calculateStatistics [5], calculateStatistics [0], 1⟩] =
          some best ∧
      best ∈ [⟨1, calculateStatistics [100], calculateStatistics [5], calculateStatistics [0], 1⟩,
          ⟨2, calculateStatistics [100], calculateStatistics [5], calculateStatistics [0], 1⟩] ∧
      (∀ l ∈ [(⟨1, calculateStatistics [100], calculateStatistics [5], calculateStatistics [0],
            1⟩ : AggregatedResult),
          ⟨2, calculateStatistics [100], calculateStatistics [5], calculateStatistics [0], 1⟩],
        best.durationStats.mean ≤ l.durationStats.mean) ∧
      (∀ l ∈ [(⟨1, calculateStatistics [100], calculateStatistics [5], calculateStatistics [0],
            1⟩ : AggregatedResult),
          ⟨2, calculateStatistics [100], calculateStatistics [5], calculateStatistics [0], 1⟩],
        l.durationStats.mean = best.durationStats.mean → best.concurrency ≤ l.concurrency) :=
  bestByMean_first_minimal _ (by simp) (by norm_num [List.pairwise_cons])

lemma jsDiv_self (a : ℚ) (ha : a ≠ 0) :
    jsDiv (JNum.num a) (JNum.num a) = JNum.num 1 := by
  simp [jsDiv, ha, div_self ha]

lemma sorted_head_one {s : List ℚ} (hs : s.Sorted (fun a b => a ≤ b)) (h1 : (1 : ℚ) ∈ s)
    (hge : ∀ x ∈ s, 1 ≤ x) : s.head? = some 1 := by
  cases s with
  | nil => cases h1
  | cons y t =>
      rcases List.mem_cons.mp h1 with hy | ht
      · rw [List.head?_cons, ← hy]
      · have hle : y ≤ 1 := (List.pairwise_cons.mp hs).1 1 ht
        have hge' : 1 ≤ y := hge y (List.mem_cons_self y t)
        rw [List.head?_cons, le_antisymm hle hge']

/-- Claim C8 (amended): the speedup baseline is
`analysis.aggregatedResults[0]`, the first aggregated level; it is the
level with concurrency 1 whenever some measurement has concurrency 1 and
none has a lower one, and the baseline's speedup against itself is exactly
`1.00` for each of mean, median, min and max provided that statistic is
nonzero. -/
theorem speedup_baseline_first_level (results : List BenchmarkResult) (timestamp : ℚ)
    (dir : String) (analysis : StatisticalAnalysis)
    (h : aggregateResults results timestamp dir = Except.ok analysis)
    (h1 : ∃ m ∈ allMeasurements results, m.concurrency = 1)
    (hge : ∀ m ∈ allMeasurements results, 1 ≤ m.concurrency) :
    ∃ seq, analysis.aggregatedResults.head? = some seq ∧ seq.concurrency = 1 ∧
      (speedupRows analysis).head? = some (speedupRow seq seq) ∧
      (seq.durationStats.mean ≠ 0 → (speedupRow seq seq).meanSpeedup = JNum.num 1) ∧
      (seq.durationStats.median ≠ 0 → (speedupRow seq seq).medianSpeedup = JNum.num 1) ∧
      (∀ q : ℚ, seq.durationStats.min = JNum.num q → q ≠ 0 →
        (speedupRow seq seq).bestSpeedup = JNum.num 1) ∧
      (∀ q : ℚ, seq.durationStats.max = JNum.num q → q ≠ 0 →
        (speedupRow seq seq).worstSpeedup = JNum.num 1) := by
  obtain ⟨m1, hm1, hc1⟩ := h1
  have hne : results ≠ [] := by
    obtain ⟨r, hr, -⟩ := List.mem_flatMap.mp hm1
    exact List.ne_nil_of_mem hr
  have hok := aggregateResults_ok results timestamp dir hne
  rw [h] at hok
  injection hok with ha
  have hhead : (sortedConcurrencies results).head? = some 1 :=
    sorted_head_one (sortAsc_sorted _)
      ((mem_sortedConcurrencies results 1).mpr ⟨m1, hm1, hc1⟩)
      (fun x hx => by
        obtain ⟨m, hm, hmc⟩ := (mem_sortedConcurrencies results x).mp hx
        exact hmc ▸ hge m hm)
  have hlevels : analysis.aggregatedResults =
      (sortedConcurrencies results).map (aggregatedLevel results) := by rw [ha]
  have hheadlevel : analysis.aggregatedResults.head? = some (aggregatedLevel results 1) := by
    rw [hlevels, List.head?_map, hhead]
    rfl
  refine ⟨aggregatedLevel results 1, hheadlevel, rfl, ?_, ?_, ?_, ?_, ?_⟩
  · rw [speedupRows, hheadlevel]
    simp only [hlevels, List.head?_map, hhead]
    rfl
  · intro hmean
    simp only [speedupRow]
    exact jsDiv_self _ hmean
  · intro hmedian
    simp only [speedupRow]
    exact jsDiv_self _ hmedian
  · intro q hq hq0
    simp only [speedupRow, hq]
    exact jsDiv_self _ hq0
  · intro q hq hq0
    simp only [speedupRow, hq]
    exact jsDiv_self _ hq0

lemma speedupRows_single (analysis : StatisticalAnalysis) (l : AggregatedResult)
    (h : analysis.aggregatedResults = [l]) : speedupRows analysis = [speedupRow l l] := by
  simp only [speedupRows, h]
  rfl

/-- Claim C8 as stated is false: when the baseline's mean duration is `0`
(which the pipeline produces when `duration_ms` is absent, recorded as 0),
the self-speedup `0 / 0` is `NaN`, not `1.00`. -/
theorem speedup_baseline_zero_mean_nan :
    (speedupRows
        { numberOfTestFiles := 10
          applicationMode := "default"
          sampleSize := 1
          aggregatedResults :=
            [⟨1, calculateStatistics [0], calculateStatistics [5], calculateStatistics [0], 1⟩]
          metadata := { timestamp := 0, benchmarkResultsDir := "dir" } }).map
      (fun row => row.meanSpeedup) = [JNum.nan] ∧ JNum.nan ≠ JNum.num 1 := by
  constructor
  · rw [speedupRows_single _
      (⟨1, calculateStatistics [0], calculateStatistics [5], calculateStatistics [0], 1⟩ :
        AggregatedResult) rfl]
    have hmean : (calculateStatistics [0]).mean = 0 := by
      norm_num [calculateStatistics, calculateMean]
    simp only [List.map_cons, List.map_nil, speedupRow, hmean]
    simp [jsDiv]
  · decide

theorem speedup_baseline_first_level_witness :
    ∃ analysis seq,
      aggregateResults [⟨10, "default", [⟨1, 100, 5, 0, 5⟩]⟩] 0 "dir" = Except.ok analysis ∧
      analysis.aggregatedResults.head? = some seq ∧ seq.concurrency = 1 ∧
      (speedupRows analysis).head? = some (speedupRow seq seq) ∧
      (seq.durationStats.mean ≠ 0 → (speedupRow seq seq).meanSpeedup = JNum.num 1) := by
  have h := aggregateResults_ok [⟨10, "default", [⟨1, 100, 5, 0, 5⟩]⟩] 0 "dir" (by simp)
  obtain ⟨seq, h1, h2, h3, h4, -, -, -⟩ :=
    speedup_baseline_first_level [⟨10, "default", [⟨1, 100, 5, 0, 5⟩]⟩] 0 "dir" _ h
      ⟨⟨1, 100, 5, 0, 5⟩, by decide, rfl⟩
      (by intro m hm; simp only [allMeasurements, List.flatMap_cons, List.flatMap_nil,
            List.append_nil, List.mem_singleton] at hm; subst hm; decide)
  exact ⟨_, seq, h, h1, h2, h3, h4⟩
